import Mathlib

/-!
Shallow embedding of `src/tools/gen_postman_collection.py`, the
OpenAPI-to-Postman-collection compiler of mirador-core, together with proofs
about the properties its specification claims.

The Python script works on dynamically typed dictionaries; the embedding uses
typed structures whose fields mirror exactly the keys the script reads, with
`Option` for keys the script accesses defensively (`dict.get`) and `Except`
for the places where a missing key raises `KeyError` (`dict['key']`).
Python's insertion-ordered `dict` is modelled by association lists
(first-match lookup, append-at-end insertion).  String primitives
(`str.lower`, `str.upper`, `str.split`, `str.title`, `str.replace`,
`str.startswith`, `str.endswith`, slicing) are modelled by structural
functions over the character list, agreeing with Python on the ASCII inputs
this tool manipulates.
-/

namespace GenPostman

/-- JSON-like values, used for schema objects and other fields whose shape the
script never commits to. -/
inductive Json where
  | null
  | bool (b : Bool)
  | num (n : Int)
  | str (s : String)
  | arr (elts : List Json)
  | obj (fields : List (String × Json))

/-- Python truthiness (`if x:`) for JSON-like values: `None`, `False`, `0`,
`""`, `[]` and `\x7b\x7d` are falsy, everything else truthy. -/
def Json.truthy : Json → Bool
  | .null => false
  | .bool b => b
  | .num n => n != 0
  | .str s => s != ""
  | .arr elts => !elts.isEmpty
  | .obj fields => !fields.isEmpty

/-- Python truthiness for a `dict.get(key, False)`-style read: an absent key
defaults to falsy. -/
def truthyOpt : Option Json → Bool
  | none => false
  | some j => j.truthy

/-- First-match association-list lookup: Python `dict[key]` / `key in dict`
(dict keys are unique, so first match is the match). -/
def alookup {α : Type} : List (String × α) → String → Option α
  | [], _ => none
  | (k, v) :: rest, key => if k = key then some v else alookup rest key

/-- Python `str.lower` on an ASCII character. -/
def lowerChar (c : Char) : Char :=
  if 65 ≤ c.toNat && c.toNat ≤ 90 then Char.ofNat (c.toNat + 32) else c

/-- Python `str.upper` on an ASCII character. -/
def upperChar (c : Char) : Char :=
  if 97 ≤ c.toNat && c.toNat ≤ 122 then Char.ofNat (c.toNat - 32) else c

/-- Python `str.lower` (ASCII fragment). -/
def lowerStr (s : String) : String := ⟨s.data.map lowerChar⟩

/-- Python `str.upper` (ASCII fragment). -/
def upperStr (s : String) : String := ⟨s.data.map upperChar⟩

/-- Python `str.split(sep)` for a one-character separator, on char lists:
`"".split('/') == ['']`, `"a//b".split('/') == ['a','','b']`. -/
def splitChar (sep : Char) : List Char → List (List Char)
  | [] => [[]]
  | c :: cs =>
    let r := splitChar sep cs
    if c = sep then [] :: r
    else
      match r with
      | [] => [[c]]
      | g :: gs => (c :: g) :: gs

/-- `path.split('/')` from the script's URL construction. -/
def splitOnSlash (s : String) : List String :=
  (splitChar '/' s.data).map (fun cs => ⟨cs⟩)

/-- Python `s.startswith(c)` for a one-character prefix. -/
def startsWithChar (s : String) (c : Char) : Bool :=
  match s.data with
  | [] => false
  | d :: _ => d = c

/-- Python `s.endswith(c)` for a one-character suffix. -/
def endsWithChar (s : String) (c : Char) : Bool :=
  match s.data.getLast? with
  | none => false
  | some d => d = c

/-- Python slice `part[1:-1]`. -/
def sliceInner (s : String) : String := ⟨(s.data.drop 1).dropLast⟩

/-- Python `str.replace(old, new)` for one-character arguments, as used by
`tag.title().replace('-', ' ')`. -/
def replaceChar (s : String) (old new : Char) : String :=
  ⟨s.data.map (fun c => if c = old then new else c)⟩

/-- Python `str.title` (ASCII fragment): a cased character starts uppercase
after an uncased one and is lowercased otherwise. -/
def pyTitleAux : Bool → List Char → List Char
  | _, [] => []
  | prevCased, c :: cs =>
    if 65 ≤ c.toNat && c.toNat ≤ 90 || 97 ≤ c.toNat && c.toNat ≤ 122 then
      (if prevCased then lowerChar c else upperChar c) :: pyTitleAux true cs
    else
      c :: pyTitleAux false cs

/-- Python `str.title` (ASCII fragment). -/
def pyTitle (s : String) : String := ⟨pyTitleAux false s.data⟩

/-! ## Input data model

Typed mirror of the dictionary shapes `create_postman_collection` and
`create_postman_request` read from the parsed OpenAPI document. -/

/-- One entry of an operation's `parameters` list.  The script reads
`param.get('in')`, `param['name']` (unguarded!), `param.get('required',
False)` and `param.get('description', '')`. -/
structure Param where
  name : Option String
  location : Option String
  required : Option Json
  description : Option String

/-- One content-type entry of a request body; the script reads
`content['application/json'].get('schema')`. -/
structure MediaType where
  schema : Option Json

/-- An operation's `requestBody`; the script reads
`operation['requestBody'].get('content', \x7b\x7d)`. -/
structure RequestBody where
  content : List (String × MediaType)

/-- One entry of the `security` list: the set of scheme names appearing as
keys of the requirement object (the script only tests key membership). -/
abbrev SecurityReq := List String

/-- One operation object, with exactly the keys the script reads. -/
structure Operation where
  summary : Option String
  tags : Option (List String)
  parameters : Option (List Param)
  security : Option (List SecurityReq)
  requestBody : Option RequestBody

/-- The `info` block; `create_postman_collection` reads
`spec['info']['title']` and `spec['info']['description']` unguarded. -/
structure Info where
  title : Option String
  description : Option String

/-- The `components` block; `get_request_body_schema` reads
`components.get('schemas', \x7b\x7d)`. -/
structure Components where
  schemas : Option (List (String × Json))

/-- A parsed OpenAPI document, restricted to the keys the script reads.
`paths` is an insertion-ordered map from path template to an
insertion-ordered map from method key to operation. -/
structure Document where
  info : Option Info
  paths : Option (List (String × List (String × Operation)))
  components : Option Components

/-! ## Output data model -/

/-- One entry of a request's `url.query` list. -/
structure QueryParam where
  key : String
  value : String
  description : String
deriving DecidableEq

/-- One entry of a request's `header` list (fixed `"type": "text"`). -/
structure Header where
  key : String
  value : String
  htype : String
deriving DecidableEq

/-- A request body stub (`mode`/`raw`, plus the fixed
`options.raw.language` value). -/
structure Body where
  mode : String
  raw : String
  language : String
deriving DecidableEq

/-- The `url` object of a built request. -/
structure Url where
  raw : String
  host : List String
  path : List String
  query : List QueryParam
deriving DecidableEq

/-- The `request` object of a built item. -/
structure Request where
  method : String
  header : List Header
  url : Url
  body : Option Body
deriving DecidableEq

/-- One Collection Item (its `response` field is always the empty list and is
omitted). -/
structure Item where
  name : String
  request : Request
deriving DecidableEq

/-- One folder of the output collection. -/
structure Folder where
  name : String
  items : List Item
deriving DecidableEq

/-- The output collection: `info.name`, `info.description` and the folder
list (the `info.schema` URL and the `variable` list are fixed constants,
see `collectionVariables`). -/
structure Collection where
  infoName : String
  infoDescription : String
  folders : List Folder
deriving DecidableEq

/-- The fixed `variable` block of every produced collection. -/
def collectionVariables : List (String × String) :=
  [("scheme", "http"), ("host", "localhost"), ("port", "8010"),
   ("apiKey", ""), ("bearerToken", "")]

/-! ## The compiler -/

/-- Last component of `ref.split('/')`, as in
`schema_ref['$ref'].split('/')[-1]`. -/
def refLast (r : String) : String :=
  ((splitChar '/' r.data).map (fun cs => (⟨cs⟩ : String))).getLastD ""

/-- Embedding of `get_request_body_schema`: resolve a `$ref`-shaped schema
reference against `components.schemas`, returning `none` when the reference
is missing, not `$ref`-shaped, or does not resolve.  (In the script this
helper is defined but never invoked by the request builder.) -/
def get_request_body_schema (schema_ref : Option Json) (components : Components) :
    Option Json :=
  match schema_ref with
  | some (Json.obj fields) =>
    if (Json.obj fields).truthy then
      match alookup fields "$ref" with
      | some (Json.str r) => alookup (components.schemas.getD []) (refLast r)
      | _ => none
    else none
  | _ => none

/-- The recognized HTTP method keys (line 127 of the script). -/
def recognizedMethods : List String :=
  ["get", "post", "put", "delete", "patch", "head", "options"]

/-- URL segment transformation: a segment that starts with a brace and ends
with a brace becomes the template placeholder built from its inner slice;
any other segment is kept literally. -/
def buildUrlPart (part : String) : String :=
  if startsWithChar part '\x7b' && endsWithChar part '\x7d' then
    "\x7b\x7b" ++ sliceInner part ++ "\x7d\x7d"
  else part

/-- `url_parts` of the script: split the path template on `/` and transform
each segment. -/
def url_parts (path : String) : List String :=
  (splitOnSlash path).map buildUrlPart

/-- Python `'/'.join(parts)`. -/
def joinSlash : List String → String
  | [] => ""
  | [p] => p
  | p :: q :: rest => p ++ "/" ++ joinSlash (q :: rest)

/-- The fixed `f"\x7b\x7bscheme\x7d\x7d://\x7b\x7bhost\x7d\x7d:\x7b\x7bport\x7d\x7d"` prefix. -/
def schemeHostPort : String :=
  "\x7b\x7bscheme\x7d\x7d://\x7b\x7bhost\x7d\x7d:\x7b\x7bport\x7d\x7d"

/-- `raw_url` of the script: scheme/host/port prefix followed by the joined
transformed segments. -/
def raw_url (path : String) : String :=
  schemeHostPort ++ joinSlash (url_parts path)

/-- Build the query-parameter list.  A parameter whose `in` is `'query'` has
its `name` read with `param['name']`, which raises `KeyError` when absent;
other parameters are skipped. -/
def buildQueryParams : List Param → Except String (List QueryParam)
  | [] => .ok []
  | p :: rest =>
    if p.location = some "query" then
      match p.name with
      | none => .error "KeyError: name"
      | some n =>
        match buildQueryParams rest with
        | .error e => .error e
        | .ok qs =>
          .ok (⟨n,
                if truthyOpt p.required then "\x7b\x7b" ++ n ++ "\x7d\x7d" else "",
                p.description.getD ""⟩ :: qs)
    else buildQueryParams rest

/-- The `X-API-Key` header emitted for an `ApiKeyAuth` requirement. -/
def apiKeyHeader : Header := ⟨"X-API-Key", "\x7b\x7bapiKey\x7d\x7d", "text"⟩

/-- The `Authorization` header emitted for a `BearerAuth` requirement. -/
def bearerHeader : Header :=
  ⟨"Authorization", "Bearer \x7b\x7bbearerToken\x7d\x7d", "text"⟩

/-- Build the header list from the `security` requirement list: each
requirement contributes an `X-API-Key` header if it names `ApiKeyAuth` and an
`Authorization` header if it names `BearerAuth`. -/
def buildHeaders (security : List SecurityReq) : List Header :=
  security.flatMap (fun req =>
    (if req.contains "ApiKeyAuth" then [apiKeyHeader] else [])
      ++ (if req.contains "BearerAuth" then [bearerHeader] else []))

/-- The generic body stub,
`json.dumps(\x7b"example": "Replace with actual request data"\x7d, indent=2)`
with raw mode and JSON language option. -/
def genericBody : Body :=
  ⟨"raw", "\x7b\n  \"example\": \"Replace with actual request data\"\n\x7d", "json"⟩

/-- Build the optional body stub: present exactly when the operation has a
`requestBody` whose `content` has an `application/json` entry carrying a
truthy `schema` value. -/
def buildBody : Option RequestBody → Option Body
  | none => none
  | some rb =>
    match alookup rb.content "application/json" with
    | none => none
    | some mt =>
      match mt.schema with
      | none => none
      | some s => if s.truthy then some genericBody else none

/-- The item record assembled at the end of `create_postman_request`. -/
def mkItem (path method : String) (operation : Operation)
    (query_params : List QueryParam) : Item :=
  { name := operation.summary.getD (upperStr method ++ " " ++ path)
    request :=
      { method := upperStr method
        header := buildHeaders (operation.security.getD [])
        url :=
          { raw := raw_url path
            host := [schemeHostPort]
            path := (url_parts path).filter (fun p => p != "")
            query := query_params }
        body := buildBody operation.requestBody } }

/-- Embedding of `create_postman_request`: build one Collection Item from one
operation, or fail with the `KeyError` raised on a query parameter with no
`name`.  The script's `components` argument is received but never read (its
unused `base_url_vars` argument is dropped here). -/
def create_postman_request (path method : String) (operation : Operation)
    (components : Components) : Except String Item :=
  match buildQueryParams (operation.parameters.getD []) with
  | .error e => .error e
  | .ok query_params => .ok (mkItem path method operation query_params)

/-- The effective tag list: `operation.get('tags', ['untagged'])`. -/
def opTags (operation : Operation) : List String :=
  operation.tags.getD ["untagged"]

/-- One extracted (path, method, operation) triple. -/
abbrev Triple := String × String × Operation

/-- The tag-group accumulator: an insertion-ordered map from raw tag string
to the triples collected under it. -/
abbrev Groups := List (String × List Triple)

/-- Operation Extractor: walk `paths` in declaration order, methods in
per-path order, keeping the pairs whose lowercased method key is
recognized. -/
def extractTriples (paths : List (String × List (String × Operation))) :
    List Triple :=
  paths.flatMap (fun pm =>
    (pm.2.filter (fun mo => recognizedMethods.contains (lowerStr mo.1))).map
      (fun mo => (pm.1, mo.1, mo.2)))

/-- Append a triple under a tag: extend the tag's entry if present (first
match), otherwise add a new entry at the end (Python dict insertion). -/
def addToGroup : Groups → String → Triple → Groups
  | [], tag, trip => [(tag, [trip])]
  | (t, ts) :: rest, tag, trip =>
    if t = tag then (t, ts ++ [trip]) :: rest
    else (t, ts) :: addToGroup rest tag trip

/-- The grouping loop of `create_postman_collection`: for each extracted
triple, append it under each of its effective tags. -/
def buildGroups (triples : List Triple) : Groups :=
  triples.foldl
    (fun gs trip => (opTags trip.2.2).foldl (fun g tag => addToGroup g tag trip) gs)
    []

/-- Folder display name: `tag.title().replace('-', ' ')`. -/
def displayName (tag : String) : String := replaceChar (pyTitle tag) '-' ' '

/-- Effectful list map over `Except`, mirroring a Python loop that may raise:
elements are processed left to right and the first failure aborts. -/
def mapExcept {α β : Type} (f : α → Except String β) : List α → Except String (List β)
  | [] => .ok []
  | a :: as =>
    match f a with
    | .error e => .error e
    | .ok b =>
      match mapExcept f as with
      | .error e => .error e
      | .ok bs => .ok (b :: bs)

/-- Build one folder from one tag group: one item per collected triple, in
collection order. -/
def buildFolder (components : Components) (g : String × List Triple) :
    Except String Folder :=
  match mapExcept (fun trip => create_postman_request trip.1 trip.2.1 trip.2.2 components) g.2 with
  | .error e => .error e
  | .ok its => .ok ⟨displayName g.1, its⟩

/-- The unguarded reads `spec['info']['title']` and
`spec['info']['description']`. -/
def getInfoField (spec : Document) : Except String (String × String) :=
  match spec.info with
  | none => .error "KeyError: info"
  | some i =>
    match i.title with
    | none => .error "KeyError: title"
    | some t =>
      match i.description with
      | none => .error "KeyError: description"
      | some d => .ok (t, d)

/-- Embedding of `create_postman_collection`: extract the recognized
(path, method, operation) triples (`spec.get('paths', \x7b\x7d)` tolerates a
missing `paths`), group them by tag in first-seen order, build each folder,
then read the `info` block (which raises on absence) and assemble the
collection. -/
def create_postman_collection (spec : Document) : Except String Collection :=
  let triples := extractTriples (spec.paths.getD [])
  let groups := buildGroups triples
  match mapExcept (buildFolder (spec.components.getD ⟨none⟩)) groups with
  | .error e => .error e
  | .ok folders =>
    match getInfoField spec with
    | .error e => .error e
    | .ok info => .ok ⟨info.1, info.2, folders⟩

/-- Whether an `Except` computation failed. -/
def failed {α : Type} : Except String α → Bool
  | .error _ => true
  | .ok _ => false

/-! ## Helper lemmas about the builder -/

theorem create_postman_request_ok {path method : String} {op : Operation}
    {comps : Components} {item : Item}
    (h : create_postman_request path method op comps = .ok item) :
    ∃ qs, buildQueryParams (op.parameters.getD []) = .ok qs ∧
      item = mkItem path method op qs := by
  unfold create_postman_request at h
  cases hq : buildQueryParams (op.parameters.getD []) with
  | error e => rw [hq] at h; cases h
  | ok qs => rw [hq] at h; exact ⟨qs, rfl, (Except.ok.injEq _ _).mp h |>.symm⟩

theorem buildQueryParams_error_of_bad {params : List Param}
    (h : ∃ p ∈ params, p.location = some "query" ∧ p.name = none) :
    buildQueryParams params = .error "KeyError: name" := by
  induction params with
  | nil => obtain ⟨p, hp, _⟩ := h; cases hp
  | cons q rest ih =>
    obtain ⟨p, hp, hloc, hname⟩ := h
    rcases List.mem_cons.mp hp with rfl | hmem
    · unfold buildQueryParams
      rw [if_pos hloc, hname]
    · unfold buildQueryParams
      by_cases hq : q.location = some "query"
      · rw [if_pos hq]
        cases hn : q.name with
        | none => rfl
        | some n => rw [ih ⟨p, hmem, hloc, hname⟩]
      · rw [if_neg hq]
        exact ih ⟨p, hmem, hloc, hname⟩

theorem buildQueryParams_ok_of_wf {params : List Param}
    (h : ∀ p ∈ params, p.location = some "query" → p.name.isSome) :
    ∃ qs, buildQueryParams params = .ok qs := by
  induction params with
  | nil => exact ⟨[], rfl⟩
  | cons q rest ih =>
    obtain ⟨qs, hqs⟩ := ih (fun p hp hl => h p (List.mem_cons_of_mem q hp) hl)
    unfold buildQueryParams
    by_cases hq : q.location = some "query"
    · rw [if_pos hq]
      cases hn : q.name with
      | none =>
        have := h q (List.mem_cons_self q rest) hq
        rw [hn] at this; cases this
      | some n => rw [hqs]; exact ⟨_, rfl⟩
    · rw [if_neg hq]; exact ⟨qs, hqs⟩

/-! ## Claim C8 -/

/-- Claim C8: compilation is deterministic — the embedded compiler is a pure
function of the parsed document (Python dicts iterate in insertion order,
modelled by association lists), so compiling the same document twice
produces identical collections. -/
theorem claim_C8_deterministic (spec : Document) :
    create_postman_collection spec = create_postman_collection spec := rfl

/-! ## Claim C9 -/

/-- Claim C9: a (path, method) pair of the document is extracted if and only
if the lowercase form of its method key is in the recognized set, and every
built item's `method` field is the uppercase form of the method key. -/
theorem claim_C9_method_case
    (paths : List (String × List (String × Operation)))
    (p m : String) (op : Operation) (comps : Components) :
    ((p, m, op) ∈ extractTriples paths ↔
      (∃ ms, (p, ms) ∈ paths ∧ (m, op) ∈ ms) ∧ lowerStr m ∈ recognizedMethods) ∧
    (∀ item, create_postman_request p m op comps = .ok item →
      item.request.method = upperStr m) := by
  constructor
  · unfold extractTriples
    simp only [List.mem_flatMap, List.mem_map, List.mem_filter, Prod.mk.injEq]
    constructor
    · rintro ⟨pm, hpm, mo, ⟨hmo, hrec⟩, h1, h2, h3⟩
      subst h1; subst h2; subst h3
      exact ⟨⟨pm.2, by simpa using hpm, hmo⟩, List.elem_iff.mp hrec⟩
    · rintro ⟨⟨ms, hms, hmo⟩, hrec⟩
      exact ⟨(p, ms), hms, (m, op), ⟨hmo, List.elem_iff.mpr hrec⟩, rfl, rfl, rfl⟩
  · intro item h
    obtain ⟨qs, _, rfl⟩ := create_postman_request_ok h
    rfl

def opPlain : Operation := ⟨none, none, none, none, none⟩

def itemPlainW : Item := mkItem "/a" "Get" opPlain []

theorem claim_C9_witness :
    (("/a", "Get", opPlain) ∈ extractTriples [("/a", [("Get", opPlain)])]) ∧
    itemPlainW.request.method = upperStr "Get" :=
  ⟨(claim_C9_method_case [("/a", [("Get", opPlain)])] "/a" "Get" opPlain ⟨none⟩).1.mpr
      ⟨⟨[("Get", opPlain)], List.mem_singleton.mpr rfl, List.mem_singleton.mpr rfl⟩,
        by decide⟩,
    (claim_C9_method_case [("/a", [("Get", opPlain)])] "/a" "Get" opPlain ⟨none⟩).2
      itemPlainW rfl⟩

/-! ## Claim C7 -/

theorem countP_bearer_block (req : SecurityReq) :
    List.countP (fun h => h == bearerHeader)
      ((if req.contains "ApiKeyAuth" then [apiKeyHeader] else [])
        ++ (if req.contains "BearerAuth" then [bearerHeader] else []))
      = if req.contains "BearerAuth" then 1 else 0 := by
  cases ha : req.contains "ApiKeyAuth" <;> cases hb : req.contains "BearerAuth" <;>
    simp [ha, hb, List.countP_cons, apiKeyHeader, bearerHeader]

theorem countP_buildHeaders (security : List SecurityReq) :
    (buildHeaders security).countP (fun h => h == bearerHeader)
      = security.countP (fun req => req.contains "BearerAuth") := by
  induction security with
  | nil => rfl
  | cons req rest ih =>
    unfold buildHeaders
    rw [List.flatMap_cons, List.countP_append]
    unfold buildHeaders at ih
    rw [ih, List.countP_cons, countP_bearer_block]
    omega

/-- Claim C7: every built item carries one `Authorization: Bearer
\x7b\x7bbearerToken\x7d\x7d` header per security-requirement entry naming
`BearerAuth`; in particular, an operation whose security list is
`[\x7b"BearerAuth": []\x7d]` gets exactly one such header. -/
theorem claim_C7_bearer_headers (path method : String) (op : Operation)
    (comps : Components) (item : Item)
    (hok : create_postman_request path method op comps = .ok item) :
    item.request.header.countP (fun h => h == bearerHeader)
      = (op.security.getD []).countP (fun req => req.contains "BearerAuth") := by
  obtain ⟨qs, _, rfl⟩ := create_postman_request_ok hok
  exact countP_buildHeaders (op.security.getD [])

def opBearerW : Operation := ⟨none, none, none, some [["BearerAuth"]], none⟩

def itemBearerW : Item := mkItem "/a" "get" opBearerW []

theorem claim_C7_witness :
    itemBearerW.request.header.countP (fun h => h == bearerHeader) = 1 :=
  (claim_C7_bearer_headers "/a" "get" opBearerW ⟨none⟩ itemBearerW rfl).trans
    (by decide)

/-! ## Claim C10 -/

/-- Claim C10: an operation whose `requestBody` has an `application/json`
content entry with an absent or null `schema` yields an item with no body at
all, and a body stub is present only when the entry carries a non-null
schema value. -/
theorem claim_C10_body_only_on_schema :
    (∀ (path method : String) (op : Operation) (comps : Components)
        (rb : RequestBody) (mt : MediaType) (item : Item),
      op.requestBody = some rb →
      alookup rb.content "application/json" = some mt →
      (mt.schema = none ∨ mt.schema = some Json.null) →
      create_postman_request path method op comps = .ok item →
      item.request.body = none) ∧
    (∀ (path method : String) (op : Operation) (comps : Components)
        (item : Item) (b : Body),
      create_postman_request path method op comps = .ok item →
      item.request.body = some b →
      ∃ rb mt s, op.requestBody = some rb ∧
        alookup rb.content "application/json" = some mt ∧
        mt.schema = some s ∧ s ≠ Json.null) := by
  constructor
  · intro path method op comps rb mt item hrb hmt hs hok
    obtain ⟨qs, _, rfl⟩ := create_postman_request_ok hok
    show buildBody op.requestBody = none
    rcases hs with hs | hs <;> simp [buildBody, hrb, hmt, hs, Json.truthy]
  · intro path method op comps item b hok hb
    obtain ⟨qs, _, rfl⟩ := create_postman_request_ok hok
    replace hb : buildBody op.requestBody = some b := hb
    cases hrb : op.requestBody with
    | none => simp [buildBody, hrb] at hb
    | some rb =>
      cases hmt : alookup rb.content "application/json" with
      | none => simp [buildBody, hrb, hmt] at hb
      | some mt =>
        cases hsc : mt.schema with
        | none => simp [buildBody, hrb, hmt, hsc] at hb
        | some s =>
          refine ⟨rb, mt, s, rfl, hmt, hsc, ?_⟩
          intro hnull
          subst hnull
          simp [buildBody, hrb, hmt, hsc, Json.truthy] at hb

def rbNullSchema : RequestBody := ⟨[("application/json", ⟨some Json.null⟩)]⟩

def opNullSchema : Operation := ⟨none, none, none, none, some rbNullSchema⟩

def itemNullW : Item := mkItem "/a" "post" opNullSchema []

theorem claim_C10_witness : itemNullW.request.body = none :=
  claim_C10_body_only_on_schema.1 "/a" "post" opNullSchema ⟨none⟩ rbNullSchema
    ⟨some Json.null⟩ itemNullW rfl rfl (Or.inr rfl) rfl

/-! ## Claim C4 -/

/-- Claim C4: the request builder never consults `components` (its body stub
is independent of schema resolution), and an operation declaring a JSON
request body whose `$ref` does not resolve against `components.schemas`
still produces an item whose body is the generic placeholder stub. -/
theorem claim_C4_unresolved_ref_body :
    (∀ (path method : String) (op : Operation) (c₁ c₂ : Components),
      create_postman_request path method op c₁ = create_postman_request path method op c₂) ∧
    (∀ (path method : String) (op : Operation) (comps : Components)
        (rb : RequestBody) (mt : MediaType) (s : Json),
      op.requestBody = some rb →
      alookup rb.content "application/json" = some mt →
      mt.schema = some s →
      s.truthy = true →
      get_request_body_schema mt.schema comps = none →
      (∀ p ∈ op.parameters.getD [], p.location = some "query" → p.name.isSome) →
      ∃ item, create_postman_request path method op comps = .ok item ∧
        item.request.body = some genericBody) := by
  constructor
  · intro path method op c₁ c₂
    rfl
  · intro path method op comps rb mt s hrb hmt hs htr _hunres hwf
    obtain ⟨qs, hqs⟩ := buildQueryParams_ok_of_wf hwf
    refine ⟨mkItem path method op qs, ?_, ?_⟩
    · unfold create_postman_request
      rw [hqs]
    · show buildBody op.requestBody = some genericBody
      simp [buildBody, hrb, hmt, hs, htr]

def refJson : Json := Json.obj [("$ref", Json.str "#/components/schemas/Missing")]

def rbRefW : RequestBody := ⟨[("application/json", ⟨some refJson⟩)]⟩

def opRefW : Operation := ⟨none, none, none, none, some rbRefW⟩

def itemRefW : Item := mkItem "/a" "post" opRefW []

theorem claim_C4_witness : itemRefW.request.body = some genericBody := by
  obtain ⟨it, h1, h2⟩ :=
    claim_C4_unresolved_ref_body.2 "/a" "post" opRefW ⟨none⟩ rbRefW ⟨some refJson⟩
      refJson rfl rfl rfl rfl rfl (by intro p hp; cases hp)
  have h3 : create_postman_request "/a" "post" opRefW ⟨none⟩ = .ok itemRefW := rfl
  rw [h1] at h3
  cases h3
  exact h2

/-! ## Claim C5 -/

theorem buildUrlPart_placeholder (pname : String) :
    buildUrlPart ("\x7b" ++ pname ++ "\x7d") = "\x7b\x7b" ++ pname ++ "\x7d\x7d" := by
  have hd : ("\x7b" ++ pname ++ "\x7d").data = '\x7b' :: (pname.data ++ ['\x7d']) := by
    rw [String.data_append, String.data_append]
    rfl
  have h1 : startsWithChar ("\x7b" ++ pname ++ "\x7d") '\x7b' = true := by
    unfold startsWithChar
    rw [hd]
    rfl
  have h2 : endsWithChar ("\x7b" ++ pname ++ "\x7d") '\x7d' = true := by
    unfold endsWithChar
    rw [hd, ← List.cons_append, List.getLast?_concat]
    rfl
  have h3 : sliceInner ("\x7b" ++ pname ++ "\x7d") = pname := by
    unfold sliceInner
    rw [hd]
    show String.mk ((pname.data ++ ['\x7d']).dropLast) = pname
    rw [List.dropLast_concat]
  unfold buildUrlPart
  rw [h1, h2, h3]
  rfl

theorem mem_data_joinSlash {a : String} {l : List String} (h : a ∈ l) :
    a.data <:+: (joinSlash l).data := by
  induction l with
  | nil => cases h
  | cons x rest ih =>
    cases rest with
    | nil =>
      rcases List.mem_singleton.mp h with rfl
      exact List.infix_refl _
    | cons y t =>
      rcases List.mem_cons.mp h with rfl | hmem
      · show a.data <:+: (a ++ "/" ++ joinSlash (y :: t)).data
        rw [String.data_append, String.data_append, List.append_assoc]
        exact List.IsPrefix.isInfix ( List.prefix_append _ _)
      · show a.data <:+: (x ++ "/" ++ joinSlash (y :: t)).data
        rw [String.data_append, String.data_append]
        exact List.IsInfix.trans (ih hmem)
          ( List.IsSuffix.isInfix (List.suffix_append _ _))

/-- Claim C5: for every path-parameter segment `\x7bp\x7d` of the path
template, the built request's raw URL contains the literal token
`\x7b\x7bp\x7d\x7d`; no path parameter is dropped. -/
theorem claim_C5_path_placeholders (path method : String) (op : Operation)
    (comps : Components) (pname : String)
    (hseg : ("\x7b" ++ pname ++ "\x7d") ∈ splitOnSlash path)
    (item : Item)
    (hok : create_postman_request path method op comps = .ok item) :
    ("\x7b\x7b" ++ pname ++ "\x7d\x7d").data <:+: item.request.url.raw.data := by
  obtain ⟨qs, _, rfl⟩ := create_postman_request_ok hok
  show ("\x7b\x7b" ++ pname ++ "\x7d\x7d").data <:+: (raw_url path).data
  have hmem : ("\x7b\x7b" ++ pname ++ "\x7d\x7d") ∈ url_parts path := by
    rw [← buildUrlPart_placeholder pname]
    exact List.mem_map_of_mem buildUrlPart hseg
  unfold raw_url
  rw [String.data_append]
  exact List.IsInfix.trans (mem_data_joinSlash hmem)
    ( List.IsSuffix.isInfix (List.suffix_append _ _))

def itemUsersW : Item := mkItem "/users/\x7bid\x7d" "get" opPlain []

theorem claim_C5_witness :
    ("\x7b\x7b" ++ "id" ++ "\x7d\x7d").data <:+: itemUsersW.request.url.raw.data :=
  claim_C5_path_placeholders "/users/\x7bid\x7d" "get" opPlain ⟨none⟩ "id"
    (by decide) itemUsersW rfl

/-! ## Grouping characterization (for claims C6 and C1)

Spec-side descriptions of the tag grouping: the traversal's (tag, triple)
occurrence stream, the first-seen order of raw tags, and the triples
collected under one tag. -/

/-- The stream of (tag, triple) occurrences in traversal order: for each
extracted triple, one event per effective tag. -/
def tagEvents (triples : List Triple) : List (String × Triple) :=
  triples.flatMap (fun trip => (opTags trip.2.2).map (fun tag => (tag, trip)))

/-- Keep the first occurrence of each key, in order, continuing from `acc`. -/
def seenFrom : List String → List String → List String
  | acc, [] => acc
  | acc, k :: rest => seenFrom (if k ∈ acc then acc else acc ++ [k]) rest

/-- The raw tag strings in order of first occurrence across the traversal. -/
def firstSeenTags (triples : List Triple) : List String :=
  seenFrom [] ((tagEvents triples).map (fun ev => ev.1))

/-- All triples collected under one raw tag, in traversal order (one copy
per occurrence of the tag in the operation's tag list). -/
def groupTriples (triples : List Triple) (tag : String) : List Triple :=
  ((tagEvents triples).filter (fun ev => ev.1 == tag)).map (fun ev => ev.2)

/-- Fold the grouping step over an event stream. -/
def foldAdd : Groups → List (String × Triple) → Groups
  | gs, [] => gs
  | gs, ev :: rest => foldAdd (addToGroup gs ev.1 ev.2) rest

theorem foldl_eq_foldAdd :
    ∀ (evs : List (String × Triple)) (gs : Groups),
      evs.foldl (fun g ev => addToGroup g ev.1 ev.2) gs = foldAdd gs evs := by
  intro evs
  induction evs with
  | nil => intro gs; rfl
  | cons ev rest ih =>
    intro gs
    rw [List.foldl_cons, ih]
    rfl

theorem buildGroups_eq_foldAdd (triples : List Triple) :
    buildGroups triples = foldAdd [] (tagEvents triples) := by
  suffices h : ∀ (ts : List Triple) (gs : Groups),
      ts.foldl
        (fun g trip => (opTags trip.2.2).foldl (fun g' tag => addToGroup g' tag trip) g)
        gs
        = foldAdd gs (tagEvents ts) by
    exact h triples []
  intro ts
  induction ts with
  | nil => intro gs; rfl
  | cons trip rest ih =>
    intro gs
    rw [List.foldl_cons, ih]
    show foldAdd _ (tagEvents rest) = foldAdd gs (tagEvents (trip :: rest))
    unfold tagEvents
    rw [List.flatMap_cons, ← foldl_eq_foldAdd, ← foldl_eq_foldAdd, List.foldl_append,
      List.foldl_map]

theorem map_fst_addToGroup (gs : Groups) (tag : String) (trip : Triple) :
    (addToGroup gs tag trip).map Prod.fst
      = if tag ∈ gs.map Prod.fst then gs.map Prod.fst
        else gs.map Prod.fst ++ [tag] := by
  induction gs with
  | nil => simp [addToGroup]
  | cons g rest ih =>
    obtain ⟨t, ts⟩ := g
    unfold addToGroup
    by_cases h : t = tag
    · subst h
      simp
    · rw [if_neg h]
      simp only [List.map_cons, ih]
      by_cases h2 : tag ∈ rest.map Prod.fst <;>
        simp [h2, List.mem_cons, Ne.symm h]

theorem addToGroup_cons (t : String) (ts : List Triple) (rest : Groups)
    (tag : String) (trip : Triple) :
    addToGroup ((t, ts) :: rest) tag trip
      = if t = tag then (t, ts ++ [trip]) :: rest
        else (t, ts) :: addToGroup rest tag trip := rfl

theorem alookup_cons {α : Type} (k₀ : String) (v : α) (rest : List (String × α))
    (k : String) :
    alookup ((k₀, v) :: rest) k = if k₀ = k then some v else alookup rest k := rfl

theorem alookup_addToGroup (gs : Groups) (tag : String) (trip : Triple) (k : String) :
    alookup (addToGroup gs tag trip) k
      = if k = tag then some ((alookup gs tag).getD [] ++ [trip])
        else alookup gs k := by
  induction gs with
  | nil =>
    show alookup [(tag, [trip])] k = _
    rw [alookup_cons]
    by_cases h : k = tag
    · subst h
      rw [if_pos rfl, if_pos rfl]
      rfl
    · rw [if_neg (fun ht : tag = k => h ht.symm), if_neg h]
  | cons g rest ih =>
    obtain ⟨t, ts⟩ := g
    rw [addToGroup_cons]
    by_cases h : t = tag
    · rw [if_pos h]
      subst h
      rw [alookup_cons]
      by_cases h2 : t = k
      · subst h2
        rw [if_pos rfl, if_pos rfl, alookup_cons, if_pos rfl]
        rfl
      · rw [if_neg h2, if_neg (fun hk : k = t => h2 hk.symm), alookup_cons, if_neg h2]
    · rw [if_neg h, alookup_cons]
      by_cases h2 : t = k
      · subst h2
        rw [if_pos rfl, if_neg (fun hk : t = tag => h hk), alookup_cons, if_pos rfl]
      · rw [if_neg h2, ih]
        by_cases h3 : k = tag
        · subst h3
          rw [if_pos rfl, if_pos rfl, alookup_cons, if_neg h]
        · rw [if_neg h3, if_neg h3, alookup_cons, if_neg h2]

theorem map_fst_foldAdd :
    ∀ (evs : List (String × Triple)) (gs : Groups),
      (foldAdd gs evs).map Prod.fst
        = seenFrom (gs.map Prod.fst) (evs.map (fun ev => ev.1)) := by
  intro evs
  induction evs with
  | nil => intro gs; rfl
  | cons ev rest ih =>
    intro gs
    show (foldAdd (addToGroup gs ev.1 ev.2) rest).map Prod.fst = _
    rw [ih, map_fst_addToGroup]
    rfl

theorem alookup_foldAdd :
    ∀ (evs : List (String × Triple)) (gs : Groups) (k : String),
      alookup (foldAdd gs evs) k
        = if (alookup gs k).isSome ∨ k ∈ evs.map (fun ev => ev.1)
          then some ((alookup gs k).getD []
            ++ (evs.filter (fun ev => ev.1 == k)).map (fun ev => ev.2))
          else none := by
  intro evs
  induction evs with
  | nil =>
    intro gs k
    cases h : alookup gs k <;> simp [foldAdd, h]
  | cons ev rest ih =>
    intro gs k
    show alookup (foldAdd (addToGroup gs ev.1 ev.2) rest) k = _
    rw [ih, alookup_addToGroup]
    by_cases h : k = ev.1
    · subst h
      simp [List.filter_cons, List.mem_cons]
    · simp only [if_neg h]
      have hbeq : (ev.1 == k) = false := by
        simp [beq_eq_false_iff_ne, Ne.symm h]
      simp only [List.filter_cons, hbeq, Bool.false_eq_true, if_false, List.map_cons]
      exact if_congr (by simp [List.mem_cons, h]) rfl rfl

theorem seenFrom_nodup :
    ∀ (keys acc : List String), acc.Nodup → (seenFrom acc keys).Nodup := by
  intro keys
  induction keys with
  | nil => intro acc h; exact h
  | cons k rest ih =>
    intro acc h
    show (seenFrom (if k ∈ acc then acc else acc ++ [k]) rest).Nodup
    by_cases hk : k ∈ acc
    · rw [if_pos hk]; exact ih acc h
    · rw [if_neg hk]
      refine ih _ (List.nodup_append.mpr ⟨h, List.nodup_singleton k, ?_⟩)
      intro a ha hak
      rcases List.mem_singleton.mp hak with rfl
      exact hk ha

theorem mem_seenFrom :
    ∀ (keys acc : List String) (a : String),
      a ∈ seenFrom acc keys ↔ a ∈ acc ∨ a ∈ keys := by
  intro keys
  induction keys with
  | nil => intro acc a; simp [seenFrom]
  | cons k rest ih =>
    intro acc a
    show a ∈ seenFrom (if k ∈ acc then acc else acc ++ [k]) rest ↔ _
    rw [ih]
    by_cases hk : k ∈ acc
    · rw [if_pos hk]
      constructor
      · rintro (h | h)
        · exact Or.inl h
        · exact Or.inr (List.mem_cons_of_mem k h)
      · rintro (h | h)
        · exact Or.inl h
        · rcases List.mem_cons.mp h with rfl | h
          · exact Or.inl hk
          · exact Or.inr h
    · rw [if_neg hk]
      simp [List.mem_append, List.mem_cons]
      tauto

theorem groups_eq_map_of_nodup :
    ∀ (gs : Groups), (gs.map Prod.fst).Nodup →
      gs = (gs.map Prod.fst).map (fun k => (k, (alookup gs k).getD [])) := by
  intro gs
  induction gs with
  | nil => intro _; rfl
  | cons g rest ih =>
    obtain ⟨t, ts⟩ := g
    intro hnd
    have hnott : t ∉ rest.map Prod.fst := (List.nodup_cons.mp hnd).1
    have hrest := ih (List.nodup_cons.mp hnd).2
    simp only [List.map_cons]
    congr 1
    · simp [alookup]
    · conv_lhs => rw [hrest]
      apply List.map_congr_left
      intro k hk
      have hne : ¬(t = k) := fun h => hnott (h ▸ hk)
      simp [alookup, hne]

/-- The grouping loop is extensionally the spec-side grouping: tags in
first-seen order, each paired with all its triples in traversal order. -/
theorem buildGroups_spec (triples : List Triple) :
    buildGroups triples
      = (firstSeenTags triples).map (fun t => (t, groupTriples triples t)) := by
  rw [buildGroups_eq_foldAdd]
  have hkeys : (foldAdd [] (tagEvents triples)).map Prod.fst = firstSeenTags triples := by
    rw [map_fst_foldAdd]
    rfl
  have hnd : ((foldAdd [] (tagEvents triples)).map Prod.fst).Nodup := by
    rw [hkeys]
    exact seenFrom_nodup _ [] List.nodup_nil
  have hrec := groups_eq_map_of_nodup _ hnd
  rw [hrec, hkeys]
  apply List.map_congr_left
  intro k hk
  have hkevs : k ∈ (tagEvents triples).map (fun ev => ev.1) := by
    rcases (mem_seenFrom _ [] k).mp hk with h | h
    · cases h
    · exact h
  rw [alookup_foldAdd]
  simp [alookup, hkevs, groupTriples]

theorem create_postman_collection_ok {spec : Document} {c : Collection}
    (h : create_postman_collection spec = .ok c) :
    ∃ folders info,
      mapExcept (buildFolder (spec.components.getD ⟨none⟩))
        (buildGroups (extractTriples (spec.paths.getD []))) = .ok folders ∧
      getInfoField spec = .ok info ∧
      c = ⟨info.1, info.2, folders⟩ := by
  unfold create_postman_collection at h
  dsimp only at h
  cases hm : mapExcept (buildFolder (spec.components.getD ⟨none⟩))
      (buildGroups (extractTriples (spec.paths.getD []))) with
  | error e => rw [hm] at h; cases h
  | ok folders =>
    rw [hm] at h
    cases hi : getInfoField spec with
    | error e => rw [hi] at h; cases h
    | ok info =>
      rw [hi] at h
      cases h
      exact ⟨folders, info, rfl, rfl, rfl⟩

/-! ## Claim C6 -/

/-- Claim C6: the collection's folders are exactly one folder per raw tag in
order of first occurrence across the paths traversal (the tag list has no
duplicates, so operations sharing a raw tag land in the same single folder),
each folder holding the items of all triples carrying that tag in traversal
order. -/
theorem claim_C6_folder_grouping (spec : Document) (c : Collection)
    (hok : create_postman_collection spec = .ok c) :
    (firstSeenTags (extractTriples (spec.paths.getD []))).Nodup ∧
    mapExcept (buildFolder (spec.components.getD ⟨none⟩))
      ((firstSeenTags (extractTriples (spec.paths.getD []))).map
        (fun t => (t, groupTriples (extractTriples (spec.paths.getD [])) t)))
      = .ok c.folders := by
  obtain ⟨folders, info, hm, _, rfl⟩ := create_postman_collection_ok hok
  refine ⟨seenFrom_nodup _ [] List.nodup_nil, ?_⟩
  rw [← buildGroups_spec]
  exact hm

def opTagM : Operation := ⟨none, some ["m"], none, none, none⟩

def docC6 : Document :=
  ⟨some ⟨some "T", some "D"⟩,
    some [("/a", [("get", opTagM)]), ("/b", [("get", opTagM)])], none⟩

def colC6 : Collection :=
  ⟨"T", "D", [⟨"M", [mkItem "/a" "get" opTagM [], mkItem "/b" "get" opTagM []]⟩]⟩

theorem claim_C6_witness :
    (firstSeenTags (extractTriples (docC6.paths.getD []))).Nodup ∧
    mapExcept (buildFolder (docC6.components.getD ⟨none⟩))
      ((firstSeenTags (extractTriples (docC6.paths.getD []))).map
        (fun t => (t, groupTriples (extractTriples (docC6.paths.getD [])) t)))
      = .ok colC6.folders :=
  claim_C6_folder_grouping docC6 colC6 rfl

/-! ## Claim C1 -/

/-- Total number of Collection Items across all folders. -/
def collectionTotalItems (c : Collection) : Nat :=
  (c.folders.map (fun f => f.items.length)).sum

/-- Total number of triples held across all groups. -/
def groupsTotal (gs : Groups) : Nat := (gs.map (fun g => g.2.length)).sum

theorem groupsTotal_addToGroup (gs : Groups) (tag : String) (trip : Triple) :
    groupsTotal (addToGroup gs tag trip) = groupsTotal gs + 1 := by
  induction gs with
  | nil => rfl
  | cons g rest ih =>
    obtain ⟨t, ts⟩ := g
    rw [addToGroup_cons]
    by_cases h : t = tag
    · rw [if_pos h]
      simp [groupsTotal]
      omega
    · rw [if_neg h]
      simp only [groupsTotal, List.map_cons, List.sum_cons] at ih ⊢
      omega

theorem groupsTotal_foldAdd :
    ∀ (evs : List (String × Triple)) (gs : Groups),
      groupsTotal (foldAdd gs evs) = groupsTotal gs + evs.length := by
  intro evs
  induction evs with
  | nil => intro gs; rfl
  | cons ev rest ih =>
    intro gs
    show groupsTotal (foldAdd (addToGroup gs ev.1 ev.2) rest) = _
    rw [ih, groupsTotal_addToGroup]
    simp
    omega

theorem length_tagEvents (triples : List Triple) :
    (tagEvents triples).length
      = (triples.map (fun trip => (opTags trip.2.2).length)).sum := by
  unfold tagEvents
  rw [List.length_flatMap]
  congr 1
  apply List.map_congr_left
  intro trip _
  simp

theorem mapExcept_ok_forall₂ {α β : Type} {f : α → Except String β} :
    ∀ {l : List α} {ys : List β}, mapExcept f l = .ok ys →
      List.Forall₂ (fun a b => f a = .ok b) l ys := by
  intro l
  induction l with
  | nil =>
    intro ys h
    cases h
    exact List.Forall₂.nil
  | cons a as ih =>
    intro ys h
    unfold mapExcept at h
    cases hf : f a with
    | error e => rw [hf] at h; cases h
    | ok b =>
      rw [hf] at h
      cases hm : mapExcept f as with
      | error e => rw [hm] at h; cases h
      | ok bs =>
        rw [hm] at h
        cases h
        exact List.Forall₂.cons hf (ih hm)

theorem mapExcept_ok_length {α β : Type} {f : α → Except String β}
    {l : List α} {ys : List β} (h : mapExcept f l = .ok ys) :
    ys.length = l.length :=
  (List.Forall₂.length_eq (mapExcept_ok_forall₂ h)).symm

theorem forall₂_sum_length {α β : Type} {R : α → β → Prop}
    {fa : α → Nat} {fb : β → Nat} {l : List α} {ys : List β}
    (h : List.Forall₂ R l ys) (hcong : ∀ a b, R a b → fb b = fa a) :
    (ys.map fb).sum = (l.map fa).sum := by
  induction h with
  | nil => rfl
  | cons hr _ ih => simp only [List.map_cons, List.sum_cons, hcong _ _ hr, ih]

theorem buildFolder_ok_length {comps : Components} {g : String × List Triple}
    {f : Folder} (h : buildFolder comps g = .ok f) :
    f.items.length = g.2.length := by
  unfold buildFolder at h
  cases hm : mapExcept
      (fun trip => create_postman_request trip.1 trip.2.1 trip.2.2 comps) g.2 with
  | error e => rw [hm] at h; cases h
  | ok its =>
    rw [hm] at h
    cases h
    exact mapExcept_ok_length hm

/-- Claim C1 (amended): the total number of Collection Items across all
folders equals the sum, over recognized (path, method) pairs, of the length
of the operation's effective tag list (`tags`, defaulting to the single
synthetic `untagged` tag) — an operation is replicated once per tag, so the
total equals the pair count only when every operation has exactly one
effective tag. -/
theorem claim_C1_amended (spec : Document) (c : Collection)
    (hok : create_postman_collection spec = .ok c) :
    collectionTotalItems c
      = ((extractTriples (spec.paths.getD [])).map
          (fun trip => (opTags trip.2.2).length)).sum := by
  obtain ⟨folders, info, hm, _, rfl⟩ := create_postman_collection_ok hok
  show (folders.map (fun f => f.items.length)).sum = _
  have h3 : (folders.map (fun f => f.items.length)).sum
      = groupsTotal (buildGroups (extractTriples (spec.paths.getD []))) :=
    forall₂_sum_length (mapExcept_ok_forall₂ hm)
      (fun g f hgf => buildFolder_ok_length hgf)
  rw [h3, buildGroups_eq_foldAdd, groupsTotal_foldAdd, length_tagEvents]
  simp [groupsTotal]

def opMultiTag : Operation := ⟨none, some ["x", "y"], none, none, none⟩

def docMultiTag : Document :=
  ⟨some ⟨some "T", some "D"⟩, some [("/a", [("get", opMultiTag)])], none⟩

/-- Claim C1 as stated is false: a single recognized (path, method) pair
whose operation carries two tags produces two Collection Items (one per
folder), not one. -/
theorem claim_C1_counterexample :
    (create_postman_collection docMultiTag).map collectionTotalItems = .ok 2 ∧
    (extractTriples (docMultiTag.paths.getD [])).length = 1 :=
  ⟨rfl, rfl⟩

def colMultiTag : Collection :=
  ⟨"T", "D", [⟨"X", [mkItem "/a" "get" opMultiTag []]⟩,
    ⟨"Y", [mkItem "/a" "get" opMultiTag []]⟩]⟩

theorem claim_C1_witness :
    collectionTotalItems colMultiTag
      = ((extractTriples (docMultiTag.paths.getD [])).map
          (fun trip => (opTags trip.2.2).length)).sum :=
  claim_C1_amended docMultiTag colMultiTag rfl

/-! ## Claim C2 -/

def paramNoName : Param := ⟨none, some "query", none, none⟩

def opBadParam : Operation := ⟨none, none, some [paramNoName], none, none⟩

def docBadParam : Document :=
  ⟨some ⟨some "T", some "D"⟩, some [("/a", [("get", opBadParam)])], none⟩

/-- Claim C2 as stated is false: a query-located parameter entry that lacks
`name` is not skipped — `param['name']` raises `KeyError` and the whole
compilation of this document aborts with an error instead of emitting the
item. -/
theorem claim_C2_counterexample :
    create_postman_collection docBadParam = .error "KeyError: name" := rfl

/-- Claim C2 (amended): a parameter entry lacking `name` is harmless only
when its `in` is not `'query'` (it never reaches the query list and the item
is still produced); a query-located parameter entry lacking `name` raises
`KeyError`, aborting the operation and with it the whole compilation. -/
theorem claim_C2_amended :
    (∀ (path method : String) (op : Operation) (comps : Components),
      (∃ p ∈ op.parameters.getD [], p.location = some "query" ∧ p.name = none) →
      create_postman_request path method op comps = .error "KeyError: name") ∧
    (∀ (path method : String) (op : Operation) (comps : Components),
      (∀ p ∈ op.parameters.getD [], p.location = some "query" → p.name.isSome) →
      ∃ item, create_postman_request path method op comps = .ok item) := by
  constructor
  · intro path method op comps h
    unfold create_postman_request
    rw [buildQueryParams_error_of_bad h]
  · intro path method op comps h
    obtain ⟨qs, hqs⟩ := buildQueryParams_ok_of_wf h
    unfold create_postman_request
    rw [hqs]
    exact ⟨_, rfl⟩

theorem claim_C2_witness :
    create_postman_request "/a" "get" opBadParam ⟨none⟩ = .error "KeyError: name" :=
  claim_C2_amended.1 "/a" "get" opBadParam ⟨none⟩
    ⟨paramNoName, List.mem_singleton.mpr rfl, rfl, rfl⟩

/-! ## Claim C3 -/

/-- Claim C3 as stated is false: a document with an `info` block but no
`paths` key does not fail — `spec.get('paths', \x7b\x7d)` substitutes an
empty map and a collection with an empty folder list is emitted. -/
theorem claim_C3_counterexample :
    create_postman_collection ⟨some ⟨some "T", some "D"⟩, none, none⟩
      = .ok ⟨"T", "D", []⟩ := rfl

/-- Claim C3 (amended): a missing `info` block aborts compilation with an
error (the unguarded `spec['info']` read), but a missing `paths` map is
tolerated: compilation succeeds and emits a collection with no folders. -/
theorem claim_C3_amended :
    (∀ spec : Document, spec.info = none →
      failed (create_postman_collection spec) = true) ∧
    (∀ (t d : String) (comps : Option Components),
      create_postman_collection ⟨some ⟨some t, some d⟩, none, comps⟩
        = .ok ⟨t, d, []⟩) := by
  constructor
  · intro spec hinfo
    unfold create_postman_collection
    dsimp only
    cases hm : mapExcept (buildFolder (spec.components.getD ⟨none⟩))
        (buildGroups (extractTriples (spec.paths.getD []))) with
    | error e => rfl
    | ok folders =>
      have hi : getInfoField spec = .error "KeyError: info" := by
        unfold getInfoField
        rw [hinfo]
      rw [hi]
      rfl
  · intro t d comps
    rfl

theorem claim_C3_witness :
    failed (create_postman_collection ⟨none, none, none⟩) = true ∧
    create_postman_collection ⟨some ⟨some "T2", some "D2"⟩, none, none⟩
      = .ok ⟨"T2", "D2", []⟩ :=
  ⟨claim_C3_amended.1 ⟨none, none, none⟩ rfl,
    claim_C3_amended.2 "T2" "D2" none⟩

end GenPostman
